import Mathlib

/-!
Verification of the observable collection projection engine
(`Types/_display/Collection.ts` and its collaborators) against its
natural-language specification.

The development shallowly embeds the algorithms of the source file:
pure fragments become Lean functions, stateful methods become explicit
state-passing functions returning the new state together with the list
of emitted events, and fallible methods return `Except`.  Where the
behaviour of a collaborator is decided by repository code that is not
part of the source tree (the `EventRaisingMixin` session helpers, the
`CollectionEnumerator`, the concrete items strategies), the collaborator
is modelled from the specification text; every such definition carries a
doc comment starting with `Modelled from the spec:`.
-/
namespace DisplayProjection

/-- A projection item: either a data item wrapping a source value
(identified here by a numeric instance id) or a synthetic group header
(`GroupItem` in the source, distinguishable by `instanceof`). -/
inductive DItem where
  | data (id : Nat)
  | group (gid : Nat)
deriving DecidableEq, Repr

/-- Translation of the `item instanceof GroupItem` test. -/
def DItem.isGroup : DItem → Bool
  | .data _ => false
  | .group _ => true

/-- The six collection-change actions of `IBind` (`ACTION_ADD` … `ACTION_RESET`). -/
inductive BindAction where
  | add
  | remove
  | replace
  | move
  | change
  | reset
deriving DecidableEq, Repr

/-- One `onCollectionChange` notification packet: the action together with
the `newItems`/`newItemsIndex`/`oldItems`/`oldItemsIndex` arguments. -/
structure Packet where
  action : BindAction
  newItems : List DItem
  newItemsIndex : Int
  oldItems : List DItem
  oldItemsIndex : Int
deriving DecidableEq, Repr

/-- Events observable by listeners of the Collection. -/
inductive DEvent where
  | beforeCollectionChange
  | collectionChange (p : Packet)
  | afterCollectionChange
  | currentChange (newCurrent oldCurrent : Option DItem) (newPosition oldPosition : Int)
deriving DecidableEq, Repr

/-- Projection-side state of a Collection that the mutation guard could
conceivably touch: the materialised items, the filter mask and the sort
map (fields `_filterMap`, `_sortMap` and the strategy result in the
source). -/
structure DisplayState where
  items : List DItem
  filterMap : List Bool
  sortMap : List Nat
deriving DecidableEq, Repr

/-! ### Mutation guard (source lines 683-721)

Every mutating method of the `IList` façade unconditionally throws the
`MESSAGE_READ_ONLY` error; no statement precedes the `throw`, so the
projection state cannot be touched. -/
/-- The `MESSAGE_READ_ONLY` constant of the source. -/
def MESSAGE_READ_ONLY : String :=
  "The Display is read only. You should modify the source collection instead."

/-- `Collection.prototype.assign`. -/
def assign (_s : DisplayState) : Except String DisplayState :=
  .error MESSAGE_READ_ONLY

/-- `Collection.prototype.append`. -/
def append (_s : DisplayState) : Except String DisplayState :=
  .error MESSAGE_READ_ONLY

/-- `Collection.prototype.prepend`. -/
def prepend (_s : DisplayState) : Except String DisplayState :=
  .error MESSAGE_READ_ONLY

/-- `Collection.prototype.clear`. -/
def clear (_s : DisplayState) : Except String DisplayState :=
  .error MESSAGE_READ_ONLY

/-- `Collection.prototype.add`. -/
def add (_s : DisplayState) (_item : DItem) (_at : Option Nat) : Except String DisplayState :=
  .error MESSAGE_READ_ONLY

/-- `Collection.prototype.remove`. -/
def remove (_s : DisplayState) (_item : DItem) : Except String Bool :=
  .error MESSAGE_READ_ONLY

/-- `Collection.prototype.removeAt`. -/
def removeAt (_s : DisplayState) (_index : Nat) : Except String DItem :=
  .error MESSAGE_READ_ONLY

/-- `Collection.prototype.replace`. -/
def replace (_s : DisplayState) (_item : DItem) (_at : Nat) : Except String DItem :=
  .error MESSAGE_READ_ONLY

/-- `Collection.prototype.move`. -/
def move (_s : DisplayState) (_from _to : Nat) : Except String DisplayState :=
  .error MESSAGE_READ_ONLY

/-! ### `_reGroup` (source lines 2497-2503)

`_reGroup(start, count)` ignores both arguments: when no strategy
composer exists it returns immediately, otherwise it invalidates the
group strategy instance. -/
/-- Memoised state of the `GroupItemsStrategy` instance held by the
composer.  `invalidate()` drops the memoised result (spec 4.1: "drops
memoised state; next read recomputes"), modelled as clearing `cached`. -/
structure GroupStrategyState where
  handlerPresent : Bool
  cached : Option (List DItem)
deriving DecidableEq, Repr

/-- Collection state relevant to `_reGroup`: the (possibly absent)
strategy composer with its group strategy instance. -/
structure GroupingState where
  composer : Option GroupStrategyState
deriving DecidableEq, Repr

/-- Translation of `Collection.prototype._reGroup(start?, count?)`. -/
def reGroup (s : GroupingState) (_start _count : Option Nat) : GroupingState :=
  match s.composer with
  | none => s
  | some g => { s with composer := some { g with cached := none } }

/-- Modelled from the spec: the reimplementation contract for `_reGroup`
demanded by the spec (section 9, open question i) — fully invalidate the
group strategy, or do nothing when no strategy composer exists. -/
def reGroupSpec (s : GroupingState) : GroupingState :=
  match s.composer with
  | none => s
  | some g => { s with composer := some { g with cached := none } }

/-! ### Per-item change protocol (source lines 2819-2887)

`_notifySourceCollectionItemChange` compares the item's visible index
before and after re-analysis and adjusts the diff of observable item
states inside the `beforeCheck` callback passed to `_checkItemsDiff`:
an item that moved upward is removed from the diff, an item that moved
downward or did not move is ensured to be in the diff. -/
/-- JS `Array.prototype.indexOf`: the index of the first occurrence,
`-1` when absent. -/
def jsIndexOf {α : Type} [DecidableEq α] (l : List α) (x : α) : Int :=
  match l.indexOf? x with
  | some i => (i : Int)
  | none => -1

/-- JS `<` on possibly-undefined numbers: any comparison against
`undefined` is `false`. -/
def jsLt : Option Int → Option Int → Bool
  | some a, some b => a < b
  | _, _ => false

/-- JS `>` on possibly-undefined numbers: any comparison against
`undefined` is `false`. -/
def jsGt : Option Int → Option Int → Bool
  | some a, some b => b < a
  | _, _ => false

/-- Translation of the `beforeCheck` callback of
`_notifySourceCollectionItemChange` (source lines 2865-2885).
`indexBefore`/`indexAfter` are the item's visible indices before and
after re-analysis (`undefined` when the enumerator has no mapping);
`diff.splice(internalItemIndex, 1)` removes the first occurrence found
by `indexOf`, rendered here as `List.erase`. -/
def adjustDiff (diff : List DItem) (internalItem : DItem)
    (indexBefore indexAfter : Option Int) : List DItem :=
  let isMoved := indexBefore ≠ indexAfter
  let internalItemIndex := jsIndexOf diff internalItem
  if isMoved then
    if internalItemIndex > -1 ∧ jsGt indexBefore indexAfter then
      diff.erase internalItem
    else if internalItemIndex = -1 ∧ jsLt indexBefore indexAfter then
      diff ++ [internalItem]
    else
      diff
  else if internalItemIndex = -1 then
    diff ++ [internalItem]
  else
    diff

/-- Modelled from the spec: `EventRaisingMixin._extractPacksByList` is not in
the source tree; per spec section 5 the change packets of one session are
delivered in items order and jointly cover the diff, so the items carried by
the emitted change packets are exactly the elements of the diff. -/
def changePacketItems (diff : List DItem) : List DItem :=
  diff

/-- The items contained in the `change` packets emitted by
`_checkItemsDiff` for a per-item source change (source lines 2722-2747
and 2865-2885): the adjusted diff when it is non-empty, nothing
otherwise (`if (diff.length)` guard). -/
def sourceItemChangeNotified (diff : List DItem) (internalItem : DItem)
    (indexBefore indexAfter : Option Int) : List DItem :=
  let adjusted := adjustDiff diff internalItem indexBefore indexAfter
  if adjusted.length = 0 then [] else changePacketItems adjusted

/-! ### Group-aware event splitting (source lines 1956-2011)

`_notifyCollectionChange` forwards the packet unchanged when there is no
session, the action is `reset`, or grouping is off; otherwise it walks
the notified items and cuts a new packet at every `GroupItem`. -/
/-- JS `Array.prototype.slice(start, finish)` on lists. -/
def jsSlice (l : List DItem) (s f : Nat) : List DItem :=
  (l.drop s).take (f - s)

/-- Translation of the local `notify(start, finish)` closure of
`_notifyCollectionChange`: one packet over `[start, finish)` when the
range is non-empty, with the indices offset by `start` when the
corresponding item list is non-empty. -/
def notifyRange (action : BindAction) (newItems : List DItem) (newItemsIndex : Int)
    (oldItems : List DItem) (oldItemsIndex : Int) (start finish : Nat) : List Packet :=
  if start < finish then
    [{ action := action
       newItems := jsSlice newItems start finish
       newItemsIndex := if newItems.length ≠ 0 then newItemsIndex + start else 0
       oldItems := jsSlice oldItems start finish
       oldItemsIndex := if oldItems.length ≠ 0 then oldItemsIndex + start else 0 }]
  else []

/-- Translation of the splitting `for` loop of `_notifyCollectionChange`
(source lines 1996-2010): `i` is the loop counter, `notifyIndex` the start
of the current run, `max` the length of `pool` (`oldItems` for a remove,
`newItems` otherwise). -/
def splitLoop (nf : Nat → Nat → List Packet) (pool : List DItem) (max : Nat)
    (i notifyIndex : Nat) : List Packet :=
  if _h : i < max then
    let item := pool.getD i (.data 0)
    if item.isGroup then
      nf notifyIndex i ++
        (if i = max - 1 then nf i (i + 1) else []) ++
        splitLoop nf pool max (i + 1) i
    else
      (if i = max - 1 then nf notifyIndex (i + 1) else []) ++
        splitLoop nf pool max (i + 1) notifyIndex
  else []
termination_by max - i

/-- Translation of `Collection.prototype._notifyCollectionChange`.
`needNotify` is `_isNeedNotifyCollectionChange()`, `hasSession` whether a
session was passed, `isGrouped` the `_isGrouped()` test.  The result is
the list of `onCollectionChange` packets handed to `_notifyLater` in
emission order. -/
def notifyCollectionChange (needNotify hasSession isGrouped : Bool)
    (action : BindAction) (newItems : List DItem) (newItemsIndex : Int)
    (oldItems : List DItem) (oldItemsIndex : Int) : List Packet :=
  if !needNotify then []
  else if !hasSession || action == .reset || !isGrouped then
    [{ action := action
       newItems := newItems
       newItemsIndex := newItemsIndex
       oldItems := oldItems
       oldItemsIndex := oldItemsIndex }]
  else
    let isRemove := action == .remove
    let pool := if isRemove then oldItems else newItems
    splitLoop (notifyRange action newItems newItemsIndex oldItems oldItemsIndex)
      pool pool.length 0 0

/-- Spec-level decomposition of an item list into its maximal contiguous
per-group runs: a run extends until the next `GroupItem`, which starts
its own run; the leading run may lack a header. -/
def runSplit : List DItem → List (List DItem)
  | [] => []
  | x :: xs =>
    (x :: xs.takeWhile (fun it => !it.isGroup)) ::
      runSplit (xs.dropWhile (fun it => !it.isGroup))
termination_by l => l.length
decreasing_by
  simp only [List.length_cons]
  exact Nat.lt_succ_of_le (xs.dropWhile_sublist _).length_le

/-- Attaches to every run of `runSplit` its start offset within the
original list. -/
def runStartsFrom (pos : Nat) : List (List DItem) → List (Nat × List DItem)
  | [] => []
  | seg :: rest => (pos, seg) :: runStartsFrom (pos + seg.length) rest

/-- The maximal per-group runs of a list, each with its start offset. -/
def runStarts (l : List DItem) : List (Nat × List DItem) :=
  runStartsFrom 0 (runSplit l)

/-- The packet that the splitting loop emits for the run starting at
`p.1` and containing the items `p.2`. -/
def runPacket (action : BindAction) (newItems : List DItem) (newItemsIndex : Int)
    (oldItems : List DItem) (oldItemsIndex : Int) (p : Nat × List DItem) : Packet :=
  { action := action
    newItems := jsSlice newItems p.1 (p.1 + p.2.length)
    newItemsIndex := if newItems.length ≠ 0 then newItemsIndex + p.1 else 0
    oldItems := jsSlice oldItems p.1 (p.1 + p.2.length)
    oldItemsIndex := if oldItems.length ≠ 0 then oldItemsIndex + p.1 else 0 }

/-- Structural reformulation of the splitting loop that walks the list of
items still to process instead of indexing into `pool`; the current
absolute position `i` and run start `notifyIndex` are carried along. -/
def splitWalk (nf : Nat → Nat → List Packet) : List DItem → Nat → Nat → List Packet
  | [], _, _ => []
  | it :: rest, i, ni =>
    let ni' := if it.isGroup then i else ni
    (if it.isGroup then nf ni i else []) ++
      (if rest = [] then nf ni' (i + 1) else []) ++
      splitWalk nf rest (i + 1) ni'

/-- Run-at-a-time reformulation: `emitSegs nf ni i xs` finishes the run
that started at `ni` (the next unprocessed position being `i`) and then
emits one range per group-headed run of `xs`. -/
def emitSegs (nf : Nat → Nat → List Packet) : Nat → Nat → List DItem → List Packet
  | ni, i, [] => nf ni i
  | ni, i, x :: xs =>
    if x.isGroup then nf ni i ++ emitSegs nf i (i + 1) xs
    else emitSegs nf ni (i + 1) xs

/-- Emits one range per run of a `runStartsFrom` decomposition. -/
def emitRuns (nf : Nat → Nat → List Packet) (pairs : List (Nat × List DItem)) : List Packet :=
  pairs.flatMap fun p => nf p.1 (p.1 + p.2.length)

/-! ### Unique-id resolution (source lines 811-823 and 1926-1936)

`getItemUid` memoises per item in `_itemToUid`; `_searchItemUid` finds
the first of `baseId`, `baseId-1`, `baseId-2`, … not in `_itemsUid` and
records it there.  The candidate strings are pairwise distinct (decimal
numerals are injective), so a fuel of `|itemsUid| + 1` is enough to reach
a fresh candidate; the fuel-free `while` loop of the source terminates at
exactly that candidate. -/
/-- The decimal digits of `n`, most significant first; reference
implementation used to reason about `Nat.repr` (the JS `String(count)`). -/
def decDigits (n : Nat) : List Char :=
  if n < 10 then [Nat.digitChar n]
  else decDigits (n / 10) ++ [Nat.digitChar (n % 10)]
termination_by n
decreasing_by exact Nat.div_lt_self (by omega) (by omega)

/-- Numeric value of a decimal digit character. -/
def digitVal (c : Char) : Nat := c.toNat - 48

/-- The `k`-th candidate tried by `_searchItemUid`: the base id itself,
then `baseId.concat('-', String(count))` for `count = 1, 2, …`. -/
def uidCandidate (baseId : String) : Nat → String
  | 0 => baseId
  | k + 1 => baseId ++ "-" ++ Nat.repr (k + 1)

/-- The `while (itemsUid.has(uid))` loop of `_searchItemUid`, with
explicit fuel (the loop terminates because candidates are pairwise
distinct and the set is finite). -/
def searchItemUidFrom (itemsUid : List String) (baseId : String) : Nat → Nat → String
  | 0, k => uidCandidate baseId k
  | fuel + 1, k =>
    if uidCandidate baseId k ∈ itemsUid then
      searchItemUidFrom itemsUid baseId fuel (k + 1)
    else uidCandidate baseId k

/-- State backing unique-id resolution: `_itemToUid` (a map keyed by the
item, newest entry first) and `_itemsUid` (a set of used uid strings). -/
structure UidState where
  itemToUid : List (Nat × String)
  itemsUid : List String

/-- Translation of `Collection.prototype._searchItemUid`: walk the
candidates until a fresh one is found, add it to `_itemsUid` and return
it. -/
def searchItemUid (s : UidState) (baseId : String) : String × UidState :=
  let uid := searchItemUidFrom s.itemsUid baseId (s.itemsUid.length + 1) 0
  (uid, { s with itemsUid := s.itemsUid.insert uid })

/-- Translation of `Collection.prototype.getItemUid`: return the memoised
uid when present; otherwise extract the base id (`_exctractItemId`, which
throws — `none` — when no id source is available), disambiguate it via
`_searchItemUid` and memoise the result. -/
def getItemUid (s : UidState) (item : Nat) (extract : Nat → Option String) :
    Option (String × UidState) :=
  match s.itemToUid.lookup item with
  | some uid => some (uid, s)
  | none =>
    match extract item with
    | none => none
    | some base =>
      let r := searchItemUid s base
      some (r.1, { r.2 with itemToUid := (item, r.1) :: r.2.itemToUid })

/-- Invariant tying `_itemToUid` to `_itemsUid`: every memoised uid is
recorded in the uid set, and distinct items are memoised to distinct
uids (this is exactly the no-duplicates property of the uid set over the
items). -/
def UidInv (s : UidState) : Prop :=
  (∀ i u, s.itemToUid.lookup i = some u → u ∈ s.itemsUid) ∧
  (∀ i j u v, i ≠ j → s.itemToUid.lookup i = some u →
    s.itemToUid.lookup j = some v → u ≠ v)

/-! ### Selection (source lines 1800-1838 and 2018-2039)

`_setSelectedItems` flips the flags of the items whose state differs,
collecting them from the last to the first, and emits one `replace`
packet when anything changed; `invertSelectedItemsAll` flips every flag
and emits a `reset` packet unconditionally. -/
/-- Selection-related state of a Collection: the projection items (the
`_getItems()` array), their `selected` flags (one per item), whether a
group function is active and whether events are raised. -/
structure SelState where
  items : List DItem
  flags : List Bool
  grouped : Bool
  eventRaising : Bool
deriving DecidableEq, Repr

/-- The `for (let i = selecItems.length - 1; i >= 0; i--)` loop of
`_setSelectedItems`, processing the positions of the selected items in
reverse order: positions whose flag differs are set and collected in
processing order. -/
def setSelectedWalk (selected : Bool) : List Nat → List Bool → List Nat × List Bool
  | [], flags => ([], flags)
  | p :: rest, flags =>
    if flags.getD p selected != selected then
      let r := setSelectedWalk selected rest (flags.set p selected)
      (p :: r.1, r.2)
    else
      setSelectedWalk selected rest flags

/-- Events produced by `_notifyBeforeCollectionChange`: one
`onBeforeCollectionChange` when events are raised. -/
def notifyBefore (eventRaising : Bool) : List DEvent :=
  if eventRaising then [.beforeCollectionChange] else []

/-- Events produced by `_notifyAfterCollectionChange`. -/
def notifyAfter (eventRaising : Bool) : List DEvent :=
  if eventRaising then [.afterCollectionChange] else []

/-- Translation of `Collection.prototype._setSelectedItems(selecItems,
selected)`; `positions` are the positions of `selecItems` within the
items array.  `selected = !!selected` is a boolean already.  When at
least one flag changed, the changed items are notified as one `replace`
packet (no session is passed to `_notifyCollectionChange`), surrounded by
the before/after events. -/
def setSelectedItemsInternal (s : SelState) (positions : List Nat) (selected : Bool) :
    SelState × List DEvent :=
  let r := setSelectedWalk selected positions.reverse s.flags
  let s' := { s with flags := r.2 }
  if r.1.length > 0 then
    let changedItems := r.1.map (fun p => s.items.getD p (.data 0))
    let index := jsIndexOf s.items (changedItems.getD 0 (.data 0))
    (s',
      notifyBefore s.eventRaising ++
        (notifyCollectionChange s.eventRaising false s.grouped .replace
            changedItems index changedItems index).map .collectionChange ++
        notifyAfter s.eventRaising)
  else (s', [])

/-- Translation of `Collection.prototype.setSelectedItems(items,
selected)`: maps the given source items to their projection items (here:
their positions) and delegates to `_setSelectedItems`. -/
def setSelectedItems (s : SelState) (positions : List Nat) (selected : Bool) :
    SelState × List DEvent :=
  setSelectedItemsInternal s positions selected

/-- Translation of `Collection.prototype.setSelectedItemsAll(selected)`:
delegates to `_setSelectedItems` with every projection item. -/
def setSelectedItemsAll (s : SelState) (selected : Bool) : SelState × List DEvent :=
  setSelectedItemsInternal s (List.range s.items.length) selected

/-- Translation of `Collection.prototype.invertSelectedItemsAll()`: flips
every item's flag and notifies one `reset` packet over all items — with
no guard on whether anything changed and with action `reset`, not
`replace`. -/
def invertSelectedItemsAll (s : SelState) : SelState × List DEvent :=
  let s' := { s with flags := s.flags.map (fun b => !b) }
  (s',
    notifyBefore s.eventRaising ++
      (notifyCollectionChange s.eventRaising false s.grouped .reset
          s.items 0 s.items 0).map .collectionChange ++
      notifyAfter s.eventRaising)

/-- The collection-change packets among a list of events. -/
def packetsOf (events : List DEvent) : List Packet :=
  events.filterMap fun e =>
    match e with
    | .collectionChange p => some p
    | _ => none

/-! ### Filter and sort setters (source lines 1158-1185 and 1546-1577)

`setFilter` compares the new handler list element-wise against the
current one before doing anything; `setSort` performs the same
comparison but opens the update session first and drops it on the
short-circuit.  The session helpers come from `EventRaisingMixin`, which
is not part of the source tree, and are modelled from the spec. -/
/-- The payload carried by a projection item (`getContents()`): the
wrapped value for a data item, the group id for a group header. -/
def DItem.contents : DItem → Nat
  | .data n => n
  | .group g => g

/-- A user handler reference: `ref` models JS function identity (the
`===` comparisons in the setters), `arity` the declared parameter count
(`fn.length`) and `props` a sort functor's declared properties. -/
structure FnRef where
  ref : Nat
  arity : Nat
  props : List String
deriving DecidableEq, Repr

/-- Collection state relevant to the filter/sort setters.  `interp` gives
the semantics of a filter handler, keyed by its `ref`: arguments are the
item contents, collection index, item, projection position, and the
group-has-members flag (supplied only for group headers). -/
structure FilterSortState where
  filter : List FnRef
  sort : List FnRef
  items : List DItem
  filterMap : List (Option Bool)
  sortMap : List Nat
  strategyValid : Bool
  importantProps : List String
  flagsSelected : List Bool
  eventRaising : Bool
  interp : Nat → Nat → Nat → DItem → Nat → Option Bool → Bool

/-- The `isMatch` closure of `_reFilter`: an item passes iff every
filter returns truthy (the loop breaks at the first falsy result). -/
def isMatch (s : FilterSortState) (item : DItem) (index position : Nat)
    (hasMembers : Option Bool) : Bool :=
  s.filter.all fun f => s.interp f.ref item.contents index item position hasMembers

/-- The `applyMatch` closure of `_reFilter`: flips a mask entry only when
the decision differs from the prior one; a `false` decision replaces only
a previously known entry.  Returns the new mask and whether it changed. -/
def applyMatch (filterMap : List (Option Bool)) (matc : Bool) (index : Nat) :
    List (Option Bool) × Bool :=
  let oldMatch := filterMap.getD index none
  if some matc = oldMatch then (filterMap, false)
  else if matc then (filterMap.set index (some matc), true)
  else if oldMatch ≠ none then (filterMap.set index (some matc), true)
  else (filterMap, false)

/-- Loop state of `_reFilter`: the mask being updated, the processed
collection indices, the changed flag and the pending group header with
its index, position and has-members flag. -/
structure ReFilterAcc where
  filterMap : List (Option Bool)
  processed : List Nat
  changed : Bool
  prevGroup : Option (DItem × Nat × Nat × Bool)

/-- The main loop of `_reFilter`, walking `(position, index)` pairs of
the sort map in sort order: group headers defer their decision until the
group's members have been seen; data items are decided immediately. -/
def reFilterLoop (s : FilterSortState) (start finish : Nat) :
    List (Nat × Nat) → ReFilterAcc → ReFilterAcc
  | [], acc => acc
  | (position, index) :: rest, acc =>
    if index < start ∨ finish ≤ index then
      reFilterLoop s start finish rest acc
    else
      let acc1 := { acc with processed := index :: acc.processed }
      let item := s.items.getD index (.data 0)
      if item.isGroup then
        let acc2 :=
          match acc1.prevGroup with
          | some (pg, pgIndex, pgPosition, pgHasMembers) =>
            let m := isMatch s pg pgIndex pgPosition (some pgHasMembers)
            let am := applyMatch acc1.filterMap m pgIndex
            { acc1 with filterMap := am.1, changed := am.2 || acc1.changed }
          | none => acc1
        reFilterLoop s start finish rest
          { acc2 with prevGroup := some (item, index, position, false) }
      else
        let m := isMatch s item index position none
        let am := applyMatch acc1.filterMap m index
        let acc2 := { acc1 with filterMap := am.1, changed := am.2 || acc1.changed }
        let acc3 :=
          if m then
            match acc2.prevGroup with
            | some (pg, pgIndex, pgPosition, _) =>
              { acc2 with prevGroup := some (pg, pgIndex, pgPosition, true) }
            | none => acc2
          else acc2
        reFilterLoop s start finish rest acc3

/-- Translation of `Collection.prototype._reFilter(start?, count?)`
(source lines 2365-2468).  `start = start || 0` and
`count = count || strategy.count - start` follow JS truthiness (an
explicit `0` falls back to the default).  After the loop, entries in the
range that were never visited are reset to unset, and the pending last
group is decided.  The model holds no enumerator caches, so `_reIndex`
has no further effect. -/
def reFilter (s : FilterSortState) (startArg countArg : Option Nat) : FilterSortState :=
  let start := match startArg with
    | none => 0
    | some v => v
  let count := match countArg with
    | none => s.items.length - start
    | some c => if c = 0 then s.items.length - start else c
  let finish := start + count
  let acc0 : ReFilterAcc :=
    { filterMap := s.filterMap, processed := [], changed := false, prevGroup := none }
  let acc1 := reFilterLoop s start finish s.sortMap.enum acc0
  let fm2 := (List.range' start count).foldl
    (fun fm index => if index ∈ acc1.processed then fm else fm.set index none)
    acc1.filterMap
  let accF :=
    match acc1.prevGroup with
    | some (pg, pgIndex, pgPosition, pgHasMembers) =>
      let m := isMatch s pg pgIndex pgPosition (some pgHasMembers)
      let am := applyMatch fm2 m pgIndex
      { acc1 with filterMap := am.1, changed := am.2 || acc1.changed }
    | none => { acc1 with filterMap := fm2 }
  { s with filterMap := accF.filterMap }

/-- Translation of `_reSort`/`_buildSortMap`: the sort map is rebuilt as
the identity over the items (the user sort lives in the strategy layer). -/
def reSort (s : FilterSortState) : FilterSortState :=
  { s with sortMap := List.range s.items.length }

/-- Translation of `_setImportantProperty`: append if absent. -/
def setImportantProperty (props : List String) (name : String) : List String :=
  if name ∈ props then props else props ++ [name]

/-- Translation of `_unsetImportantProperty`: remove the first
occurrence if present. -/
def unsetImportantProperty (props : List String) (name : String) : List String :=
  props.erase name

/-- Translation of `_switchImportantPropertiesByUserSort`: add or remove
every sort functor's declared properties. -/
def switchImportantPropertiesByUserSort (s : FilterSortState) (add : Bool) :
    FilterSortState :=
  let step := fun (ps : List String) (f : FnRef) =>
    f.props.foldl
      (fun ps2 p => if add then setImportantProperty ps2 p else unsetImportantProperty ps2 p)
      ps
  { s with importantProps := s.sort.foldl step s.importantProps }

/-- Modelled from the spec: `EventRaisingMixin._startUpdateSession` is
not in the source tree; per spec 4.7 opening a session captures a
snapshot of observable per-item state (the selected flag per item) and
performs no mutation and no emission. -/
def startUpdateSession (s : FilterSortState) : Option (List Bool) :=
  if s.eventRaising then some s.flagsSelected else none

/-- Modelled from the spec: `EventRaisingMixin._finishUpdateSession` and
`_analizeUpdateSession` are not in the source tree; per spec 4.7 closing
a session compares the snapshot against the post-mutation state and
emits `change` events for items whose observable state differs, wrapped
in the before/after events. -/
def finishUpdateSession (s : FilterSortState) (session : Option (List Bool)) :
    List DEvent :=
  match session with
  | none => []
  | some before =>
    let changedItems := (s.flagsSelected.zip before).enum.filterMap
      (fun pi => if pi.2.1 != pi.2.2 then some (s.items.getD pi.1 (.data 0)) else none)
    if changedItems.isEmpty then []
    else
      notifyBefore s.eventRaising ++
        [.collectionChange ⟨.change, changedItems, 0, changedItems, 0⟩] ++
        notifyAfter s.eventRaising

/-- Translation of `Collection.prototype.setFilter(...filter)`: when the
new list has the same length and every entry is reference-equal to the
current one, return before touching anything; otherwise install the list,
re-filter inside an update session. -/
def setFilter (s : FilterSortState) (args : List FnRef) : FilterSortState × List DEvent :=
  let filters := args
  if s.filter.length = filters.length ∧
      ¬ (s.filter.zip filters).any (fun p => decide (p.1 ≠ p.2)) then
    (s, [])
  else
    let s1 := { s with filter := filters }
    let session := startUpdateSession s1
    let s2 := reFilter s1 none none
    (s2, finishUpdateSession s2 session)

/-- Translation of `Collection.prototype.setSort(...sort)`: the update
session is opened before the equality guard; on the short-circuit the
function returns with the session dropped.  Otherwise the functor
properties are switched, the handler list replaced, the strategy
invalidated and the projection re-sorted (and re-filtered when a filter
is active). -/
def setSort (s : FilterSortState) (args : List FnRef) : FilterSortState × List DEvent :=
  let session := startUpdateSession s
  let sorts := args
  if s.sort.length = sorts.length ∧
      ¬ (s.sort.zip sorts).any (fun p => decide (p.1 ≠ p.2)) then
    (s, [])
  else
    let s1 := switchImportantPropertiesByUserSort s false
    let s2 := { s1 with sort := sorts }
    let s3 := switchImportantPropertiesByUserSort s2 true
    let s4 := { s3 with strategyValid := false }
    let s5 := reSort s4
    let s6 := if s5.filter.length > 0 then reFilter s5 none none else s5
    (s6, finishUpdateSession s6 session)

/-! ### Cursor (source lines 842-887)

`setCurrent` and `setCurrentPosition` guard against no-op moves before
doing anything, and both honour the `silent` flag; the cursor enumerator
itself is not in the source tree and is modelled from spec 4.6. -/
/-- Cursor state: the visible sequence seen by the cursor enumerator,
the cursor position (∈ [-1, visibleCount) per spec 4.6, -1 meaning no
current item) and the event-raising flag. -/
structure CursorState where
  visible : List DItem
  position : Int
  eventRaising : Bool
deriving DecidableEq, Repr

/-- Modelled from the spec: `CollectionEnumerator.getCurrent` is not in
the source tree; per spec 4.6 the cursor yields the item at its
position, none at -1. -/
def cursorGetCurrent (s : CursorState) : Option DItem :=
  if h : 0 ≤ s.position ∧ s.position < (s.visible.length : Int) then
    some (s.visible.get ⟨s.position.toNat, by omega⟩)
  else none

/-- Modelled from the spec: `CollectionEnumerator.setCurrent` positions
the cursor at the given item within the visible sequence (spec 4.6);
JS `indexOf` semantics, -1 when the item is not visible. -/
def cursorSetCurrent (s : CursorState) (item : DItem) : CursorState :=
  { s with position := jsIndexOf s.visible item }

/-- Translation of `_notifyCurrentChange` (source lines 2757-2775): one
`onCurrentChange` when events are raised (the queue dedup of
`_removeFromQueue` does not affect a single emission). -/
def notifyCurrentChange (s : CursorState) (newCurrent oldCurrent : Option DItem)
    (newPos oldPos : Int) : List DEvent :=
  if s.eventRaising then [.currentChange newCurrent oldCurrent newPos oldPos] else []

/-- Translation of `Collection.prototype.setCurrent(item, silent?)`. -/
def setCurrent (s : CursorState) (item : DItem) (silent : Bool) :
    CursorState × List DEvent :=
  let oldCurrent := cursorGetCurrent s
  if oldCurrent ≠ some item then
    let oldPosition := s.position
    let s' := cursorSetCurrent s item
    if !silent then
      (s', notifyCurrentChange s' (cursorGetCurrent s') oldCurrent s'.position oldPosition)
    else (s', [])
  else (s, [])

/-- Translation of `Collection.prototype.setCurrentPosition(position,
silent?)`. -/
def setCurrentPosition (s : CursorState) (position : Int) (silent : Bool) :
    CursorState × List DEvent :=
  let oldPosition := s.position
  if position ≠ oldPosition then
    let oldCurrent := cursorGetCurrent s
    let s' := { s with position := position }
    if !silent then
      (s', notifyCurrentChange s' (cursorGetCurrent s') oldCurrent position oldPosition)
    else (s', [])
  else (s, [])

/-! ### Coordinate queries (source lines 723-728 and 1030-1099)

The façade's coordinate queries default to `-1` / `undefined` whenever a
mapping is missing.  The enumerator's translation maps and the concrete
strategies are not in the source tree; they are modelled from spec 4.4
and 4.6 (the only strategy code in the source tree, `AbstractStrategy`,
translates indices as the identity; out-of-range indices pass through it
unchanged). -/
/-- State of the coordinate queries: the pipeline items, filter mask,
sort map and the source collection's values. -/
structure CoordState where
  items : List DItem
  filterMap : List Bool
  sortMap : List Nat
  collection : List Nat
deriving DecidableEq, Repr

/-- Modelled from the spec: the utility enumerator's visible view — the
pipeline indices passing the filter, in sort order (spec 4.6,
"coordinate translation across the filter mask and sort permutation"). -/
def visiblePipeline (s : CoordState) : List Nat :=
  s.sortMap.filter (fun i => s.filterMap.getD i true)

/-- The visible items, in visible order. -/
def visibleItems (s : CoordState) : List DItem :=
  (visiblePipeline s).map (fun i => s.items.getD i (.data 0))

/-- Modelled from the spec: `CollectionEnumerator.getInternalBySource` —
the visible position of a pipeline index, undefined when hidden or out
of range. -/
def getInternalBySource (s : CoordState) (index : Int) : Option Int :=
  if 0 ≤ index then
    match (visiblePipeline s).indexOf? index.toNat with
    | some p => some (p : Int)
    | none => none
  else none

/-- Modelled from the spec: `CollectionEnumerator.getSourceByInternal` —
the pipeline index at a visible position, undefined when out of range. -/
def getSourceByInternal (s : CoordState) (position : Int) : Option Int :=
  if 0 ≤ position ∧ position < ((visiblePipeline s).length : Int) then
    some (((visiblePipeline s).getD position.toNat 0 : Nat) : Int)
  else none

/-- Modelled from the spec: the composed strategy's `getDisplayIndex` —
spec 4.4: the display index of the `k`-th data item is `k` plus the
number of headers before it, i.e. the position of the `k`-th non-group
item; out-of-range indices pass through unchanged (`AbstractStrategy`'s
identity translation). -/
def strategyDisplayIndex (s : CoordState) (k : Int) : Int :=
  let dataPositions := (s.items.enum.filter (fun p => !p.2.isGroup)).map Prod.fst
  if 0 ≤ k ∧ k < (dataPositions.length : Int) then
    (dataPositions.getD k.toNat 0 : Int)
  else k

/-- Modelled from the spec: the composed strategy's `getCollectionIndex`
— the inverse skips headers (spec 4.4): a header position yields -1, a
data position the number of data items before it; out-of-range indices
pass through unchanged. -/
def strategyCollectionIndex (s : CoordState) (d : Int) : Int :=
  if 0 ≤ d ∧ d < (s.items.length : Int) then
    if (s.items.getD d.toNat (.data 0)).isGroup then -1
    else (((s.items.take d.toNat).filter (fun it => !it.isGroup)).length : Int)
  else d

/-- Modelled from the spec: `CollectionEnumerator.getIndexByValue` on the
`instanceId` property — a linear scan for the first matching visible
item, -1 when absent (spec 4.6). -/
def getIndexByInstanceId (s : CoordState) (it : DItem) : Int :=
  jsIndexOf (visibleItems s) it

/-- Translation of `Collection.prototype.getIndex(item)` (lines
723-728): a value that is not a `CollectionItem` (modelled `none`)
yields -1; otherwise the instance-id lookup. -/
def getIndex (s : CoordState) (item : Option DItem) : Int :=
  match item with
  | none => -1
  | some it => getIndexByInstanceId s it

/-- Translation of `getSourceIndexByIndex(index)` (lines 1030-1034):
an undefined/null enumerator result becomes -1 before the strategy
translation. -/
def getSourceIndexByIndex (s : CoordState) (index : Int) : Int :=
  let sourceIndex : Int :=
    match getSourceByInternal s index with
    | none => -1
    | some v => v
  strategyCollectionIndex s sourceIndex

/-- Translation of `getSourceIndexByItem(item)` (lines 1041-1044). -/
def getSourceIndexByItem (s : CoordState) (item : Option DItem) : Int :=
  let index := getIndex s item
  if index = -1 then -1 else getSourceIndexByIndex s index

/-- Translation of `getIndexBySourceIndex(index)` (lines 1051-1056). -/
def getIndexBySourceIndex (s : CoordState) (index : Int) : Int :=
  let index2 := strategyDisplayIndex s index
  match getInternalBySource s index2 with
  | none => -1
  | some v => v

/-- Translation of `getIndexBySourceItem(item)` (lines 1063-1079): the
value's index in the source collection (-1 when absent), then the
index-based mapping. -/
def getIndexBySourceItem (s : CoordState) (item : Nat) : Int :=
  let sourceIndex : Int := jsIndexOf s.collection item
  if sourceIndex = -1 then -1 else getIndexBySourceIndex s sourceIndex

/-- Translation of `at(index)` through the utility enumerator: the item
at the visible position, undefined when out of range (spec 4.6). -/
def atIndex (s : CoordState) (index : Int) : Option DItem :=
  if 0 ≤ index then (visibleItems s)[index.toNat]? else none

/-- Translation of `getItemBySourceIndex(index)` (lines 1086-1089). -/
def getItemBySourceIndex (s : CoordState) (index : Int) : Option DItem :=
  let i := getIndexBySourceIndex s index
  if i = -1 then none else atIndex s i

/-- Translation of `getItemBySourceItem(item)` (lines 1096-1099). -/
def getItemBySourceItem (s : CoordState) (item : Nat) : Option DItem :=
  let i := getIndexBySourceItem s item
  if i = -1 then none else atIndex s i

/-! ### getFilter / getSort snapshots (source lines 1113-1115 and 1478-1480)

Both getters `return this._$filter.slice()` / `this._$sort.slice()` — a
freshly allocated array with copied contents.  To make the aliasing
question statable, arrays live in a store and `_$filter`/`_$sort` are
references into it; `slice()` allocates a fresh reference. -/
/-- A store of arrays; a reference is an index into the store and a
fresh allocation appends. -/
structure ArrayStore where
  arrays : List (List FnRef)
deriving DecidableEq, Repr

/-- Dereferences an array. -/
def readArray (st : ArrayStore) (r : Nat) : List FnRef :=
  st.arrays.getD r []

/-- Mutates the array behind a reference in place. -/
def writeArray (st : ArrayStore) (r : Nat) (v : List FnRef) : ArrayStore :=
  ⟨st.arrays.set r v⟩

/-- Allocates a fresh array. -/
def allocArray (st : ArrayStore) (v : List FnRef) : Nat × ArrayStore :=
  (st.arrays.length, ⟨st.arrays ++ [v]⟩)

/-- Collection state as far as handler-array aliasing is concerned:
the store plus the `_$filter` and `_$sort` references. -/
structure HeapState where
  store : ArrayStore
  filterRef : Nat
  sortRef : Nat
deriving DecidableEq, Repr

/-- Translation of `getFilter()`: `return this._$filter.slice()`. -/
def getFilterCopy (s : HeapState) : Nat × HeapState :=
  let r := allocArray s.store (readArray s.store s.filterRef)
  (r.1, { s with store := r.2 })

/-- Translation of `getSort()`: `return this._$sort.slice()`. -/
def getSortCopy (s : HeapState) : Nat × HeapState :=
  let r := allocArray s.store (readArray s.store s.sortRef)
  (r.1, { s with store := r.2 })

theorem splitLoop_eq_splitWalk (nf : Nat → Nat → List Packet) (pool : List DItem) :
    ∀ (l : List DItem) (i ni : Nat), pool.drop i = l →
      splitLoop nf pool pool.length i ni = splitWalk nf l i ni := by
  intro l
  induction l with
  | nil =>
    intro i ni h
    have hge : pool.length ≤ i := by
      by_contra hlt
      exact absurd h (by simp [List.drop_eq_nil_iff, Nat.not_le.mp hlt] at *)
    rw [splitLoop]
    simp [splitWalk, Nat.not_lt.mpr hge]
  | cons it rest ih =>
    intro i ni h
    have hlt : i < pool.length := by
      by_contra hge
      rw [List.drop_eq_nil_iff.mpr (Nat.not_lt.mp hge)] at h
      exact List.noConfusion h
    have hget : pool.getD i (.data 0) = it := by
      have h0 : pool[i]? = some it := by
        have := List.getElem?_drop pool i 0
        rw [h] at this
        simpa using this.symm
      simp [List.getD_eq_getElem?_getD, h0]
    have hrest : pool.drop (i + 1) = rest := by
      have := congrArg List.tail h
      simpa [List.tail_drop] using this
    have hlast : (i = pool.length - 1) = (rest = []) := by
      have h1 : rest = [] ↔ pool.length ≤ i + 1 := by
        rw [← hrest, List.drop_eq_nil_iff]
      have h2 : (i = pool.length - 1) ↔ pool.length ≤ i + 1 := by omega
      simp [h1, h2]
    rw [splitLoop, dif_pos hlt, hget]
    by_cases hg : it.isGroup
    · simp only [splitWalk, hg, if_true, hlast, ih (i + 1) i hrest, List.append_assoc]
    · simp only [splitWalk, hg, if_false, hlast, ih (i + 1) ni hrest,
        Bool.false_eq_true, List.append_assoc, List.nil_append]

theorem splitWalk_eq_emitSegs (nf : Nat → Nat → List Packet) :
    ∀ (xs : List DItem) (i ni : Nat), xs ≠ [] →
      splitWalk nf xs i ni = emitSegs nf ni i xs := by
  intro xs
  induction xs with
  | nil => intro i ni h; exact absurd rfl h
  | cons it rest ih =>
    intro i ni _
    rcases Decidable.em (rest = []) with hr | hr
    · subst hr
      by_cases hg : it.isGroup <;>
        simp [splitWalk, emitSegs, hg]
    · by_cases hg : it.isGroup <;>
        simp [splitWalk, emitSegs, hg, hr, ih _ _ hr]

theorem emitSegs_cut (nf : Nat → Nat → List Packet) :
    ∀ (xs : List DItem) (ni i : Nat),
      emitSegs nf ni i xs =
        nf ni (i + (xs.takeWhile (fun x => !x.isGroup)).length) ++
          (match xs.dropWhile (fun x => !x.isGroup) with
           | [] => []
           | _ :: rest =>
             emitSegs nf (i + (xs.takeWhile (fun x => !x.isGroup)).length)
               (i + (xs.takeWhile (fun x => !x.isGroup)).length + 1) rest) := by
  intro xs
  induction xs with
  | nil => intro ni i; simp [emitSegs]
  | cons x xs ih =>
    intro ni i
    by_cases hg : x.isGroup
    · simp [emitSegs, hg, List.takeWhile_cons, List.dropWhile_cons]
    · have := ih ni (i + 1)
      simp only [emitSegs, hg, if_neg, Bool.false_eq_true, if_false,
        List.takeWhile_cons, List.dropWhile_cons, Bool.not_false, if_true] at *
      rw [this]
      have harith : i + 1 + (xs.takeWhile (fun x => !x.isGroup)).length =
          i + ((xs.takeWhile (fun x => !x.isGroup)).length + 1) := by omega
      simp [hg, harith]

theorem emitSegs_eq_emitRuns (nf : Nat → Nat → List Packet)
    (x : DItem) (xs : List DItem) (s : Nat) :
    emitSegs nf s (s + 1) xs = emitRuns nf (runStartsFrom s (runSplit (x :: xs))) := by
  rw [runSplit]
  have harith : s + (x :: xs.takeWhile (fun it => !it.isGroup)).length =
      s + 1 + (xs.takeWhile (fun it => !it.isGroup)).length := by
    simp only [List.length_cons]; omega
  rcases hd : xs.dropWhile (fun it => !it.isGroup) with _ | ⟨g, rest⟩
  · rw [emitSegs_cut, hd]
    simp only [emitRuns, runStartsFrom, runSplit, List.flatMap_cons, List.flatMap_nil,
      List.append_nil, harith]
  · rw [emitSegs_cut, hd]
    have hrec := emitSegs_eq_emitRuns nf g rest
      (s + 1 + (xs.takeWhile (fun it => !it.isGroup)).length)
    simp only [emitRuns, runStartsFrom, List.flatMap_cons, harith] at *
    rw [hrec]
termination_by xs.length
decreasing_by
  have hle : (xs.dropWhile (fun it => !it.isGroup)).length ≤ xs.length :=
    (xs.dropWhile_sublist _).length_le
  rw [hd] at hle
  simp only [List.length_cons] at hle
  omega

theorem runSplit_segs_ne_nil (l : List DItem) :
    ∀ seg ∈ runSplit l, seg ≠ [] := by
  match l with
  | [] =>
    intro seg hseg
    rw [runSplit] at hseg
    exact absurd hseg (List.not_mem_nil seg)
  | x :: xs =>
    intro seg hseg
    rw [runSplit] at hseg
    rcases List.mem_cons.mp hseg with h | h
    · subst h; exact List.cons_ne_nil _ _
    · exact runSplit_segs_ne_nil (xs.dropWhile (fun it => !it.isGroup)) seg h
termination_by l.length
decreasing_by
  have hle : (xs.dropWhile (fun it => !it.isGroup)).length ≤ xs.length :=
    (xs.dropWhile_sublist _).length_le
  simp only [List.length_cons]
  omega

theorem runStartsFrom_map_snd :
    ∀ (segs : List (List DItem)) (s : Nat), (runStartsFrom s segs).map Prod.snd = segs := by
  intro segs
  induction segs with
  | nil => intro s; rfl
  | cons seg rest ih => intro s; simp [runStartsFrom, ih]

theorem runStartsFrom_slice (l pref : List DItem) :
    ∀ p ∈ runStartsFrom pref.length (runSplit l),
      jsSlice (pref ++ l) p.1 (p.1 + p.2.length) = p.2 := by
  match l with
  | [] =>
    intro p hp
    rw [runSplit] at hp
    exact absurd hp (List.not_mem_nil p)
  | x :: xs =>
    intro p hp
    rw [runSplit] at hp
    rcases List.mem_cons.mp hp with h | h
    · subst h
      have htake : xs.take (xs.takeWhile (fun it => !it.isGroup)).length =
          xs.takeWhile (fun it => !it.isGroup) :=
        (List.prefix_iff_eq_take.mp (xs.takeWhile_prefix _)).symm
      simp only [jsSlice, Nat.add_sub_cancel_left, List.drop_left, List.length_cons,
        List.take_succ_cons, htake]
    · have hsplit : pref ++ x :: xs =
          (pref ++ x :: xs.takeWhile (fun it => !it.isGroup)) ++
            xs.dropWhile (fun it => !it.isGroup) := by
        simp only [List.append_assoc, List.cons_append, List.append_cancel_left_eq,
          List.cons.injEq, true_and]
        exact (xs.takeWhile_append_dropWhile _).symm
      have hlen : pref.length + (x :: xs.takeWhile (fun it => !it.isGroup)).length =
          (pref ++ x :: xs.takeWhile (fun it => !it.isGroup)).length := by
        simp [List.length_append]
      rw [hlen] at h
      have := runStartsFrom_slice (xs.dropWhile (fun it => !it.isGroup))
        (pref ++ x :: xs.takeWhile (fun it => !it.isGroup)) p h
      rw [hsplit]
      exact this
termination_by l.length
decreasing_by
  have hle : (xs.dropWhile (fun it => !it.isGroup)).length ≤ xs.length :=
    (xs.dropWhile_sublist _).length_le
  simp only [List.length_cons]
  omega

theorem emitRuns_eq_map_runPacket (action : BindAction) (newItems : List DItem)
    (newItemsIndex : Int) (oldItems : List DItem) (oldItemsIndex : Int) :
    ∀ (segs : List (List DItem)) (s : Nat), (∀ seg ∈ segs, seg ≠ []) →
      emitRuns (notifyRange action newItems newItemsIndex oldItems oldItemsIndex)
          (runStartsFrom s segs)
        = (runStartsFrom s segs).map
            (runPacket action newItems newItemsIndex oldItems oldItemsIndex) := by
  intro segs
  induction segs with
  | nil => intro s _; rfl
  | cons seg rest ih =>
    intro s h
    have hne : seg ≠ [] := h seg (List.mem_cons_self _ _)
    have hlen : 0 < seg.length := List.length_pos.mpr hne
    simp only [runStartsFrom, emitRuns, List.flatMap_cons, List.map_cons]
    rw [notifyRange, if_pos (by omega : s < s + seg.length)]
    rw [List.singleton_append]
    congr 1
    exact ih _ (fun sg hsg => h sg (List.mem_cons_of_mem _ hsg))

/-- C2: while a group function is active, inside an update session, and for
an action other than `reset`, `_notifyCollectionChange` splits the event
into per-group packets: one `onCollectionChange` per maximal contiguous
run of notified items sharing a group (a run extends to the next group
header), with the packet's `newItemsIndex`/`oldItemsIndex` offset by the
run's start within the original item range, and with the packet carrying
exactly that run of the notified items. -/
theorem notifyCollectionChange_group_split
    (action : BindAction) (newItems : List DItem) (newItemsIndex : Int)
    (oldItems : List DItem) (oldItemsIndex : Int)
    (hact : action ≠ .reset) :
    notifyCollectionChange true true true action newItems newItemsIndex oldItems oldItemsIndex
        = (runStarts (if action == .remove then oldItems else newItems)).map
            (runPacket action newItems newItemsIndex oldItems oldItemsIndex) ∧
      (notifyCollectionChange true true true action newItems newItemsIndex
            oldItems oldItemsIndex).map
          (fun p => if action == .remove then p.oldItems else p.newItems)
        = runSplit (if action == .remove then oldItems else newItems) := by
  have hbeq : (action == BindAction.reset) = false := by
    simp [beq_iff_eq, hact]
  set nf := notifyRange action newItems newItemsIndex oldItems oldItemsIndex with hnf
  set pool := if action == BindAction.remove then oldItems else newItems with hpool
  have hmain : notifyCollectionChange true true true action newItems newItemsIndex
      oldItems oldItemsIndex
      = (runStarts pool).map (runPacket action newItems newItemsIndex oldItems oldItemsIndex) := by
    rw [notifyCollectionChange]
    simp only [hbeq, Bool.not_true, Bool.false_or, Bool.or_false, if_false,
      Bool.false_eq_true]
    rw [splitLoop_eq_splitWalk nf pool pool 0 0 (List.drop_zero pool)]
    match hp : pool with
    | [] => rw [runStarts, runSplit]; rfl
    | x :: xs =>
      rw [splitWalk_eq_emitSegs nf (x :: xs) 0 0 (List.cons_ne_nil x xs)]
      have hstep : emitSegs nf 0 0 (x :: xs) = emitSegs nf 0 1 xs := by
        by_cases hg : x.isGroup
        · have h00 : nf 0 0 = [] := by rw [hnf, notifyRange]; simp
          simp [emitSegs, hg, h00]
        · simp [emitSegs, hg]
      rw [hstep]
      have h01 : (0 : Nat) + 1 = 1 := rfl
      rw [runStarts, ← h01, emitSegs_eq_emitRuns nf x xs 0]
      exact emitRuns_eq_map_runPacket action newItems newItemsIndex oldItems oldItemsIndex
        (runSplit (x :: xs)) 0 (runSplit_segs_ne_nil (x :: xs))
  refine ⟨hmain, ?_⟩
  rw [hmain, List.map_map]
  have hcongr : ∀ p ∈ runStartsFrom 0 (runSplit pool),
      ((fun p => if action == BindAction.remove then p.oldItems else p.newItems) ∘
        runPacket action newItems newItemsIndex oldItems oldItemsIndex) p = p.2 := by
    intro p hp
    have hslice := runStartsFrom_slice pool [] p (by simpa using hp)
    simp only [List.nil_append] at hslice
    by_cases hrem : action == BindAction.remove
    · simp only [Function.comp, runPacket, hrem, if_true]
      rw [hpool] at hslice
      simpa [hrem] using hslice
    · simp only [Function.comp, runPacket, hrem, if_false, Bool.false_eq_true]
      rw [hpool] at hslice
      simp only [hrem, if_false, Bool.false_eq_true] at hslice
      exact hslice
  rw [runStarts] at *
  rw [List.map_congr_left hcongr, runStartsFrom_map_snd]

/-- Witness for C2 at a concrete grouped input. -/
theorem notifyCollectionChange_group_split_witness :
    BindAction.add ≠ BindAction.reset ∧
      notifyCollectionChange true true true .add
          [.group 1, .data 1, .group 2, .data 2] 4 [] 0
        = (runStarts [DItem.group 1, .data 1, .group 2, .data 2]).map
            (runPacket .add [.group 1, .data 1, .group 2, .data 2] 4 [] 0) :=
  ⟨by decide,
    (notifyCollectionChange_group_split .add [.group 1, .data 1, .group 2, .data 2] 4 [] 0
      (by decide)).1⟩

theorem jsIndexOf_eq_neg_one_iff (l : List DItem) (x : DItem) :
    jsIndexOf l x = -1 ↔ x ∉ l := by
  constructor
  · intro h hmem
    rcases hio : l.indexOf? x with _ | i
    · rw [List.indexOf?_eq_none_iff] at hio
      exact hio x hmem (by simp)
    · rw [jsIndexOf, hio] at h
      have hi : (i : Int) = -1 := h
      omega
  · intro hnot
    have hio : l.indexOf? x = none :=
      List.indexOf?_eq_none_iff.mpr
        (fun y hy hbeq => hnot (by rwa [eq_of_beq hbeq] at hy))
    rw [jsIndexOf, hio]

theorem jsIndexOf_gt_neg_one_iff (l : List DItem) (x : DItem) :
    jsIndexOf l x > -1 ↔ x ∈ l := by
  constructor
  · intro h
    by_contra hnot
    rw [(jsIndexOf_eq_neg_one_iff l x).mpr hnot] at h
    omega
  · intro hmem
    rcases hio : l.indexOf? x with _ | i
    · rw [List.indexOf?_eq_none_iff] at hio
      exact absurd (by simp : (x == x) = true) (by simpa using hio x hmem)
    · rw [jsIndexOf, hio]
      show (i : Int) > -1
      omega

theorem mem_sourceItemChangeNotified_iff (diff : List DItem) (item x : DItem)
    (b a : Option Int) :
    x ∈ sourceItemChangeNotified diff item b a ↔ x ∈ adjustDiff diff item b a := by
  rw [sourceItemChangeNotified]
  by_cases h : (adjustDiff diff item b a).length = 0
  · have hnil : adjustDiff diff item b a = [] := List.length_eq_zero.mp h
    simp [h, changePacketItems, hnil]
  · simp [h, changePacketItems]

theorem adjustDiff_up (diff : List DItem) (item : DItem) (b a : Int) (h : a < b) :
    adjustDiff diff item (some b) (some a) =
      if item ∈ diff then diff.erase item else diff := by
  have hmoved : (some b : Option Int) ≠ some a := by
    simp only [ne_eq, Option.some.injEq]
    omega
  have hgt : jsGt (some b) (some a) = true := by
    simp only [jsGt, decide_eq_true_eq]
    omega
  have hlt : jsLt (some b) (some a) = false := by
    simp only [jsLt, decide_eq_false_iff_not]
    omega
  by_cases hmem : item ∈ diff
  · have hidx := (jsIndexOf_gt_neg_one_iff diff item).mpr hmem
    simp [adjustDiff, hmoved, hgt, hidx, hmem]
  · have hidx := (jsIndexOf_eq_neg_one_iff diff item).mpr hmem
    have hidx2 : ¬ jsIndexOf diff item > -1 := by
      rw [jsIndexOf_gt_neg_one_iff]
      exact hmem
    simp [adjustDiff, hmoved, hgt, hlt, hidx, hidx2, hmem]

theorem adjustDiff_down (diff : List DItem) (item : DItem) (b a : Int) (h : b < a) :
    adjustDiff diff item (some b) (some a) =
      if item ∈ diff then diff else diff ++ [item] := by
  have hmoved : (some b : Option Int) ≠ some a := by
    simp only [ne_eq, Option.some.injEq]
    omega
  have hgt : jsGt (some b) (some a) = false := by
    simp only [jsGt, decide_eq_false_iff_not]
    omega
  have hlt : jsLt (some b) (some a) = true := by
    simp only [jsLt, decide_eq_true_eq]
    omega
  by_cases hmem : item ∈ diff
  · have hidx := (jsIndexOf_gt_neg_one_iff diff item).mpr hmem
    have hidx2 : ¬ jsIndexOf diff item = -1 := by
      rw [jsIndexOf_eq_neg_one_iff]
      simpa using hmem
    simp [adjustDiff, hmoved, hgt, hidx2, hmem]
  · have hidx := (jsIndexOf_eq_neg_one_iff diff item).mpr hmem
    have hidx2 : ¬ jsIndexOf diff item > -1 := by
      rw [jsIndexOf_gt_neg_one_iff]
      exact hmem
    simp [adjustDiff, hmoved, hgt, hlt, hidx, hidx2, hmem]

theorem adjustDiff_still (diff : List DItem) (item : DItem) (b : Int) :
    adjustDiff diff item (some b) (some b) =
      if item ∈ diff then diff else diff ++ [item] := by
  by_cases hmem : item ∈ diff
  · have hidx2 : ¬ jsIndexOf diff item = -1 := by
      rw [jsIndexOf_eq_neg_one_iff]
      simpa using hmem
    simp [adjustDiff, hidx2, hmem]
  · have hidx := (jsIndexOf_eq_neg_one_iff diff item).mpr hmem
    simp [adjustDiff, hidx, hmem]

/-- C1: for a per-item source change analysed by
`_notifySourceCollectionItemChange`, with the item's visible index known
before and after re-analysis: if the item moved upward (new index
smaller), the emitted change packets omit it; if it moved downward, they
include it; and if it did not move, they include it — in particular when
its observable state changed (it is in the diff). -/
theorem sourceItemChange_move_change_protocol
    (diff : List DItem) (item : DItem) (indexBefore indexAfter : Int)
    (hnodup : diff.Nodup) :
    (indexAfter < indexBefore →
      item ∉ sourceItemChangeNotified diff item (some indexBefore) (some indexAfter)) ∧
    (indexBefore < indexAfter →
      item ∈ sourceItemChangeNotified diff item (some indexBefore) (some indexAfter)) ∧
    (indexBefore = indexAfter →
      item ∈ sourceItemChangeNotified diff item (some indexBefore) (some indexAfter)) := by
  refine ⟨?_, ?_, ?_⟩
  · intro hlt
    rw [mem_sourceItemChangeNotified_iff, adjustDiff_up diff item indexBefore indexAfter hlt]
    by_cases hmem : item ∈ diff
    · rw [if_pos hmem]
      intro hcontra
      exact absurd ((hnodup.mem_erase_iff).mp hcontra).1 (by simp)
    · rw [if_neg hmem]
      exact hmem
  · intro hlt
    rw [mem_sourceItemChangeNotified_iff, adjustDiff_down diff item indexBefore indexAfter hlt]
    by_cases hmem : item ∈ diff
    · rw [if_pos hmem]; exact hmem
    · rw [if_neg hmem]; simp
  · intro heq
    subst heq
    rw [mem_sourceItemChangeNotified_iff, adjustDiff_still diff item indexBefore]
    by_cases hmem : item ∈ diff
    · rw [if_pos hmem]; exact hmem
    · rw [if_neg hmem]; simp

/-- Witness for C1 at concrete inputs covering all three branches. -/
theorem sourceItemChange_move_change_protocol_witness :
    [DItem.data 2].Nodup ∧
      ((1 : Int) < 3 → DItem.data 1 ∉
        sourceItemChangeNotified [.data 2] (.data 1) (some 3) (some 1)) ∧
      ((3 : Int) < 5 → DItem.data 1 ∈
        sourceItemChangeNotified [.data 2] (.data 1) (some 3) (some 5)) ∧
      ((2 : Int) = 2 → DItem.data 1 ∈
        sourceItemChangeNotified [.data 2] (.data 1) (some 2) (some 2)) :=
  ⟨by decide,
    (sourceItemChange_move_change_protocol [.data 2] (.data 1) 3 1 (by decide)).1,
    (sourceItemChange_move_change_protocol [.data 2] (.data 1) 3 5 (by decide)).2.1,
    (sourceItemChange_move_change_protocol [.data 2] (.data 1) 2 2 (by decide)).2.2⟩

theorem toDigitsCore_eq_decDigits :
    ∀ (fuel n : Nat) (l : List Char), n < fuel →
      Nat.toDigitsCore 10 fuel n l = decDigits n ++ l := by
  intro fuel
  induction fuel with
  | zero => intro n l h; omega
  | succ f ih =>
    intro n l h
    by_cases h10 : n / 10 = 0
    · have hlt : n < 10 := by omega
      simp only [Nat.toDigitsCore, h10, if_pos]
      rw [decDigits, if_pos hlt, Nat.mod_eq_of_lt hlt]
      rfl
    · have hge : ¬ n < 10 := by omega
      simp only [Nat.toDigitsCore, h10, if_false]
      rw [ih (n / 10) _ (by omega)]
      conv_rhs => rw [decDigits, if_neg hge]
      simp

theorem foldl_decDigits (n : Nat) : ∀ a : Nat,
    (decDigits n).foldl (fun acc c => 10 * acc + digitVal c) a
      = a * 10 ^ (decDigits n).length + n := by
  intro a
  by_cases hlt : n < 10
  · have hdg : digitVal (Nat.digitChar n) = n := by
      have hball : ∀ d : Nat, d < 10 → digitVal (Nat.digitChar d) = d := by decide
      exact hball n hlt
    rw [decDigits, if_pos hlt]
    simp [List.foldl, hdg]
    omega
  · have hdg : digitVal (Nat.digitChar (n % 10)) = n % 10 := by
      have hball : ∀ d : Nat, d < 10 → digitVal (Nat.digitChar d) = d := by decide
      exact hball (n % 10) (by omega)
    rw [decDigits, if_neg hlt]
    rw [List.foldl_append]
    rw [foldl_decDigits (n / 10) a]
    simp only [List.foldl, hdg, List.length_append, List.length_singleton]
    rw [pow_succ, ← Nat.mul_assoc]
    omega
termination_by n
decreasing_by exact Nat.div_lt_self (by omega) (by omega)

theorem decDigits_injective {m n : Nat} (h : decDigits m = decDigits n) : m = n := by
  have hm := foldl_decDigits m 0
  have hn := foldl_decDigits n 0
  rw [h] at hm
  simp only [Nat.zero_mul, Nat.zero_add] at hm hn
  omega

theorem natRepr_injective {m n : Nat} (h : Nat.repr m = Nat.repr n) : m = n := by
  have hd := congrArg String.data h
  simp only [Nat.repr, Nat.toDigits, List.asString] at hd
  rw [toDigitsCore_eq_decDigits (m + 1) m [] (by omega),
    toDigitsCore_eq_decDigits (n + 1) n [] (by omega)] at hd
  simp only [List.append_nil] at hd
  exact decDigits_injective hd

theorem string_append_left_cancel {s a b : String} (h : s ++ a = s ++ b) : a = b := by
  have hd := congrArg String.data h
  simp only [String.data_append] at hd
  exact String.ext (List.append_cancel_left hd)

theorem uidCandidate_injective (b : String) {j k : Nat}
    (h : uidCandidate b j = uidCandidate b k) : j = k := by
  match j, k with
  | 0, 0 => rfl
  | 0, k + 1 =>
    exfalso
    rw [uidCandidate, uidCandidate] at h
    have hlen := congrArg String.length h
    simp only [String.length_append] at hlen
    have hdash : "-".length = 1 := rfl
    omega
  | j + 1, 0 =>
    exfalso
    rw [uidCandidate, uidCandidate] at h
    have hlen := congrArg String.length h
    simp only [String.length_append] at hlen
    have hdash : "-".length = 1 := rfl
    omega
  | j + 1, k + 1 =>
    rw [uidCandidate, uidCandidate] at h
    exact natRepr_injective (string_append_left_cancel h)

theorem searchItemUidFrom_spec (set : List String) (b : String) :
    ∀ fuel k : Nat, (∃ m, k ≤ m ∧ m < k + fuel ∧ uidCandidate b m ∉ set) →
      ∃ m₀, k ≤ m₀ ∧ uidCandidate b m₀ ∉ set ∧
        (∀ j, k ≤ j → j < m₀ → uidCandidate b j ∈ set) ∧
        searchItemUidFrom set b fuel k = uidCandidate b m₀ := by
  intro fuel
  induction fuel with
  | zero =>
    rintro k ⟨m, h1, h2, _⟩
    omega
  | succ f ih =>
    rintro k ⟨m, h1, h2, h3⟩
    rw [searchItemUidFrom]
    by_cases hk : uidCandidate b k ∈ set
    · rw [if_pos hk]
      have hmk : m ≠ k := fun hc => h3 (hc ▸ hk)
      obtain ⟨m₀, hm1, hm2, hm3, hm4⟩ :=
        ih (k + 1) ⟨m, by omega, by omega, h3⟩
      refine ⟨m₀, by omega, hm2, ?_, hm4⟩
      intro j hj1 hj2
      rcases Nat.eq_or_lt_of_le hj1 with heq | hlt
      · exact heq ▸ hk
      · exact hm3 j hlt hj2
    · rw [if_neg hk]
      exact ⟨k, Nat.le_refl k, hk, fun j hj1 hj2 => absurd hj1 (by omega), rfl⟩

theorem exists_fresh_candidate (set : List String) (b : String) :
    ∃ m, m ≤ set.length ∧ uidCandidate b m ∉ set := by
  by_contra hcon
  push_neg at hcon
  have hsub : ((List.range (set.length + 1)).map (uidCandidate b)) ⊆ set := by
    intro x hx
    simp only [List.mem_map, List.mem_range] at hx
    obtain ⟨m, hm, rfl⟩ := hx
    exact hcon m (by omega)
  have hnodup : ((List.range (set.length + 1)).map (uidCandidate b)).Nodup :=
    List.Nodup.map (fun _ _ h => uidCandidate_injective b h) (List.nodup_range _)
  have hlen := (List.subperm_of_subset hnodup hsub).length_le
  simp only [List.length_map, List.length_range] at hlen
  omega

theorem searchItemUid_spec (s : UidState) (b : String) :
    ∃ m₀ : Nat, uidCandidate b m₀ ∉ s.itemsUid ∧
      (∀ j, j < m₀ → uidCandidate b j ∈ s.itemsUid) ∧
      (searchItemUid s b).1 = uidCandidate b m₀ ∧
      (searchItemUid s b).2.itemsUid = uidCandidate b m₀ :: s.itemsUid ∧
      (searchItemUid s b).2.itemToUid = s.itemToUid := by
  obtain ⟨m, hm1, hm2⟩ := exists_fresh_candidate s.itemsUid b
  obtain ⟨m₀, _, h2, h3, h4⟩ :=
    searchItemUidFrom_spec s.itemsUid b (s.itemsUid.length + 1) 0
      ⟨m, by omega, by omega, hm2⟩
  refine ⟨m₀, h2, fun j hj => h3 j (by omega) hj, ?_, ?_, rfl⟩
  · simp [searchItemUid, h4]
  · simp [searchItemUid, h4, List.insert_of_not_mem h2]

theorem lookup_cons_self {it : Nat} {u : String} {rest : List (Nat × String)} :
    List.lookup it ((it, u) :: rest) = some u := by
  simp [List.lookup_cons]

theorem lookup_cons_ne {i it : Nat} {u : String} {rest : List (Nat × String)}
    (h : i ≠ it) :
    List.lookup i ((it, u) :: rest) = List.lookup i rest := by
  have hbeq : (i == it) = false := by simpa using h
  simp [List.lookup_cons, hbeq]

/-- C5: when a base id is available, `getItemUid` returns the memoised
uid on repeated calls, and on the first call returns the base id itself
when unused, otherwise the base id with the smallest suffix `-1`, `-2`, …
not yet in the uid set; the result is fresh, recorded in the uid set and
memoised, and distinct memoised items keep pairwise distinct uids. -/
theorem getItemUid_resolution (s : UidState) (extract : Nat → Option String)
    (item : Nat) (base : String) (hinv : UidInv s)
    (hbase : extract item = some base) :
    (∀ u, s.itemToUid.lookup item = some u →
      getItemUid s item extract = some (u, s)) ∧
    (s.itemToUid.lookup item = none →
      ∃ uid s', getItemUid s item extract = some (uid, s') ∧
        uid ∉ s.itemsUid ∧
        (base ∉ s.itemsUid → uid = base) ∧
        (base ∈ s.itemsUid →
          ∃ m, 1 ≤ m ∧ uid = base ++ "-" ++ Nat.repr m ∧
            ∀ j, 1 ≤ j → j < m → base ++ "-" ++ Nat.repr j ∈ s.itemsUid) ∧
        uid ∈ s'.itemsUid ∧
        s'.itemToUid.lookup item = some uid ∧
        getItemUid s' item extract = some (uid, s') ∧
        (∀ other v, other ≠ item → s.itemToUid.lookup other = some v → v ≠ uid) ∧
        UidInv s') := by
  constructor
  · intro u hu
    rw [getItemUid, hu]
  · intro hnone
    obtain ⟨m₀, hfresh, hmin, hval, hset, hmap⟩ := searchItemUid_spec s base
    refine ⟨(searchItemUid s base).1,
      { itemToUid := (item, (searchItemUid s base).1) :: (searchItemUid s base).2.itemToUid,
        itemsUid := (searchItemUid s base).2.itemsUid }, ?_, ?_, ?_, ?_, ?_, ?_, ?_, ?_, ?_⟩
    · rw [getItemUid, hnone, hbase]
    · rw [hval]; exact hfresh
    · intro hbnot
      rcases Nat.eq_zero_or_pos m₀ with h0 | hpos
      · rw [hval, h0]; rfl
      · exact absurd (hmin 0 hpos) hbnot
    · intro hbmem
      rcases Nat.eq_zero_or_pos m₀ with h0 | hpos
      · rw [h0] at hfresh
        exact absurd hbmem hfresh
      · refine ⟨m₀, hpos, ?_, ?_⟩
        · rw [hval]
          obtain ⟨k, rfl⟩ : ∃ k, m₀ = k + 1 := ⟨m₀ - 1, by omega⟩
          rfl
        · intro j hj1 hj2
          obtain ⟨t, rfl⟩ : ∃ t, j = t + 1 := ⟨j - 1, by omega⟩
          exact hmin (t + 1) hj2
    · rw [hval, hset]
      exact List.mem_cons_self _ _
    · exact lookup_cons_self
    · rw [getItemUid, lookup_cons_self]
    · intro other v hother hv
      have hvset : v ∈ s.itemsUid := hinv.1 other v hv
      rw [hval]
      intro hc
      rw [hc] at hvset
      exact hfresh hvset
    · constructor
      · intro i u hu
        show u ∈ (searchItemUid s base).2.itemsUid
        rw [hset]
        by_cases hi : i = item
        · rw [hi, lookup_cons_self] at hu
          simp only [Option.some.injEq] at hu
          rw [← hu, hval]
          exact List.mem_cons_self _ _
        · rw [lookup_cons_ne hi, hmap] at hu
          exact List.mem_cons_of_mem _ (hinv.1 i u hu)
      · intro i j u v hij hu hv
        by_cases hi : i = item
        · have hj : j ≠ item := fun hc => hij (by rw [hi, hc])
          rw [hi, lookup_cons_self] at hu
          simp only [Option.some.injEq] at hu
          rw [lookup_cons_ne hj, hmap] at hv
          have hvset : v ∈ s.itemsUid := hinv.1 j v hv
          rw [← hu, hval]
          intro hc
          rw [← hc] at hvset
          exact hfresh hvset
        · rw [lookup_cons_ne hi, hmap] at hu
          by_cases hj : j = item
          · rw [hj, lookup_cons_self] at hv
            simp only [Option.some.injEq] at hv
            have huset : u ∈ s.itemsUid := hinv.1 i u hu
            rw [← hv, hval]
            intro hc
            rw [hc] at huset
            exact hfresh huset
          · rw [lookup_cons_ne hj, hmap] at hv
            exact hinv.2 i j u v hij hu hv

/-- Witness for C5: two items share the base id `"a"` and a third item's
base id is the literal string `"a-1"`; the resolved uids are `"a"`,
`"a-1"` and `"a-1-1"`. -/
theorem getItemUid_resolution_witness :
    UidInv ⟨[], []⟩ ∧
      (fun _ : Nat => some "a") 7 = some "a" ∧
      ∃ uid s', getItemUid ⟨[], []⟩ 7 (fun _ => some "a") = some (uid, s') ∧
        uid ∉ ([] : List String) := by
  have h := getItemUid_resolution ⟨[], []⟩ (fun _ => some "a") 7 "a"
    ⟨fun i u hu => by simp [List.lookup] at hu,
     fun i j u v _ hu => by simp [List.lookup] at hu⟩ rfl
  obtain ⟨uid, s', h1, h2, _⟩ := h.2 (by simp [List.lookup])
  exact ⟨⟨fun i u hu => by simp [List.lookup] at hu,
    fun i j u v _ hu => by simp [List.lookup] at hu⟩, rfl, uid, s', h1, h2⟩

theorem setSelectedWalk_nil_unchanged (selected : Bool) (ps : List Nat) :
    ∀ flags, (setSelectedWalk selected ps flags).1 = [] →
      (setSelectedWalk selected ps flags).2 = flags := by
  induction ps with
  | nil => intro flags _; rfl
  | cons p rest ih =>
    intro flags h
    by_cases hc : flags.getD p selected != selected
    · rw [setSelectedWalk, if_pos hc] at h ⊢
      exact absurd h (by simp)
    · rw [setSelectedWalk, if_neg hc] at h ⊢
      exact ih flags h

theorem notifyCollectionChange_no_session (g : Bool) (act : BindAction)
    (n : List DItem) (ni : Int) (o : List DItem) (oi : Int) :
    notifyCollectionChange true false g act n ni o oi = [⟨act, n, ni, o, oi⟩] := by
  rw [notifyCollectionChange]
  simp

/-- C4 counterexample: on a collection with one unselected item,
`invertSelectedItemsAll` changes the item's selected flag, yet the
emitted collection-change packet has action `reset`, not `replace`. -/
theorem invertSelectedItemsAll_counterexample :
    ((invertSelectedItemsAll ⟨[.data 0], [false], false, true⟩).1.flags ≠
        (⟨[.data 0], [false], false, true⟩ : SelState).flags) ∧
      (∀ p ∈ packetsOf (invertSelectedItemsAll ⟨[.data 0], [false], false, true⟩).2,
        p.action ≠ .replace) ∧
      (∃ p ∈ packetsOf (invertSelectedItemsAll ⟨[.data 0], [false], false, true⟩).2,
        p.action = .reset) := by
  decide

/-- C4 (amended): with events enabled, a selection change through
`setSelectedItems`/`setSelectedItemsAll` (both delegate to
`_setSelectedItems`) that changes at least one flag emits exactly one
collection-change packet, whose action is `replace` and which covers the
affected items; when no flag changes, nothing is emitted and the flags
are untouched.  `invertSelectedItemsAll`, however, flips every flag and
emits a single `reset`-action packet over all items. -/
theorem selection_change_events (s : SelState) (positions : List Nat) (selected : Bool)
    (hER : s.eventRaising = true) :
    (∀ changed flagsAfter,
      setSelectedWalk selected positions.reverse s.flags = (changed, flagsAfter) →
      (changed = [] →
        setSelectedItemsInternal s positions selected = ({ s with flags := flagsAfter }, []) ∧
          flagsAfter = s.flags) ∧
      (changed ≠ [] → ∃ index,
        setSelectedItemsInternal s positions selected =
          ({ s with flags := flagsAfter },
            [.beforeCollectionChange,
             .collectionChange ⟨.replace, changed.map (fun p => s.items.getD p (.data 0)), index,
               changed.map (fun p => s.items.getD p (.data 0)), index⟩,
             .afterCollectionChange]))) ∧
    setSelectedItemsAll s selected =
      setSelectedItemsInternal s (List.range s.items.length) selected ∧
    invertSelectedItemsAll s =
      ({ s with flags := s.flags.map (fun b => !b) },
        [.beforeCollectionChange,
         .collectionChange ⟨.reset, s.items, 0, s.items, 0⟩,
         .afterCollectionChange]) := by
  refine ⟨?_, rfl, ?_⟩
  · intro changed flagsAfter hw
    constructor
    · intro hnil
      subst hnil
      have hunch := setSelectedWalk_nil_unchanged selected positions.reverse s.flags
        (by rw [hw])
      rw [hw] at hunch
      constructor
      · rw [setSelectedItemsInternal, hw]
        simp
      · exact hunch
    · intro hne
      refine ⟨jsIndexOf s.items ((changed.map (fun p => s.items.getD p (.data 0))).getD 0
        (.data 0)), ?_⟩
      rw [setSelectedItemsInternal, hw]
      simp only [List.length_pos.mpr hne, if_pos, notifyBefore, notifyAfter, hER, if_true,
        notifyCollectionChange_no_session, List.map_cons, List.map_nil]
      rfl
  · rw [invertSelectedItemsAll]
    simp only [notifyBefore, notifyAfter, hER, if_true, notifyCollectionChange_no_session,
      List.map_cons, List.map_nil]
    rfl

/-- Witness for C4 (amended) at a concrete input: selecting item 0 of two
unselected items emits one replace packet over it; inverting emits one
reset packet over all items. -/
theorem selection_change_events_witness :
    (⟨[.data 0, .data 1], [false, false], false, true⟩ : SelState).eventRaising = true ∧
      setSelectedWalk true [0].reverse [false, false] = ([0], [true, false]) ∧
      ∃ index,
        setSelectedItemsInternal ⟨[.data 0, .data 1], [false, false], false, true⟩ [0] true =
          (⟨[.data 0, .data 1], [true, false], false, true⟩,
            [.beforeCollectionChange,
             .collectionChange ⟨.replace, [.data 0], index, [.data 0], index⟩,
             .afterCollectionChange]) := by
  have h := (selection_change_events ⟨[.data 0, .data 1], [false, false], false, true⟩
    [0] true rfl).1 [0] [true, false] (by decide)
  obtain ⟨index, hix⟩ := h.2 (by decide)
  exact ⟨rfl, by decide, index, by simpa using hix⟩

theorem zip_self_any_ne (l : List FnRef) :
    (l.zip l).any (fun p => decide (p.1 ≠ p.2)) = false := by
  induction l with
  | nil => rfl
  | cons x xs ih =>
    simp only [List.zip_cons_cons, List.any_cons, ih, Bool.or_false]
    simp

/-- C3: calling `setFilter` with an argument list element-wise equal
(same references, same length) to the current filter list, or `setSort`
with an argument list element-wise equal to the current sort list,
changes no observable projection state and emits zero events; for
`setSort` the session opened before the guard is a pure snapshot and is
dropped. -/
theorem setFilter_setSort_noop (s : FilterSortState) (fs ss : List FnRef)
    (hf : fs = s.filter) (hs : ss = s.sort) :
    setFilter s fs = (s, []) ∧ setSort s ss = (s, []) := by
  subst hf
  subst hs
  constructor
  · rw [setFilter, if_pos]
    exact ⟨rfl, by rw [zip_self_any_ne]; simp⟩
  · rw [setSort, if_pos]
    exact ⟨rfl, by rw [zip_self_any_ne]; simp⟩

/-- Witness for C3 at a concrete state with one filter and one sort
handler. -/
theorem setFilter_setSort_noop_witness :
    ([⟨1, 4, []⟩] : List FnRef) =
        (FilterSortState.mk [⟨1, 4, []⟩] [⟨2, 2, []⟩] [.data 0] [some true] [0] true [] [false]
          true (fun _ _ _ _ _ _ => true)).filter ∧
      ([⟨2, 2, []⟩] : List FnRef) =
        (FilterSortState.mk [⟨1, 4, []⟩] [⟨2, 2, []⟩] [.data 0] [some true] [0] true [] [false]
          true (fun _ _ _ _ _ _ => true)).sort ∧
      setFilter (FilterSortState.mk [⟨1, 4, []⟩] [⟨2, 2, []⟩] [.data 0] [some true] [0] true []
          [false] true (fun _ _ _ _ _ _ => true)) [⟨1, 4, []⟩] =
        (FilterSortState.mk [⟨1, 4, []⟩] [⟨2, 2, []⟩] [.data 0] [some true] [0] true [] [false]
          true (fun _ _ _ _ _ _ => true), []) ∧
      setSort (FilterSortState.mk [⟨1, 4, []⟩] [⟨2, 2, []⟩] [.data 0] [some true] [0] true []
          [false] true (fun _ _ _ _ _ _ => true)) [⟨2, 2, []⟩] =
        (FilterSortState.mk [⟨1, 4, []⟩] [⟨2, 2, []⟩] [.data 0] [some true] [0] true [] [false]
          true (fun _ _ _ _ _ _ => true), []) := by
  have h := setFilter_setSort_noop
    (FilterSortState.mk [⟨1, 4, []⟩] [⟨2, 2, []⟩] [.data 0] [some true] [0] true [] [false]
      true (fun _ _ _ _ _ _ => true)) [⟨1, 4, []⟩] [⟨2, 2, []⟩] rfl rfl
  exact ⟨rfl, rfl, h.1, h.2⟩

/-- C10: `onCurrentChange` is not emitted unless the cursor moves:
`setCurrent` with the item already current and `setCurrentPosition` with
the current position are complete no-ops (no state change, no events),
and with the `silent` flag no event is emitted even when the cursor
moves. -/
theorem currentChange_only_on_move (s : CursorState) (item : DItem) (p : Int)
    (silent : Bool) :
    (cursorGetCurrent s = some item → setCurrent s item silent = (s, [])) ∧
    (p = s.position → setCurrentPosition s p silent = (s, [])) ∧
    (setCurrent s item true).2 = [] ∧
    (setCurrentPosition s p true).2 = [] := by
  refine ⟨?_, ?_, ?_, ?_⟩
  · intro h
    rw [setCurrent]
    simp [h]
  · intro h
    rw [setCurrentPosition]
    simp [h]
  · rw [setCurrent]
    by_cases h : cursorGetCurrent s ≠ some item <;> simp [h]
  · rw [setCurrentPosition]
    by_cases h : p ≠ s.position <;> simp [h]

/-- Witness for C10 at a one-item collection with the cursor on it. -/
theorem currentChange_only_on_move_witness :
    cursorGetCurrent ⟨[.data 0], 0, true⟩ = some (.data 0) ∧
      setCurrent ⟨[.data 0], 0, true⟩ (.data 0) false = (⟨[.data 0], 0, true⟩, []) ∧
      (0 : Int) = (⟨[.data 0], 0, true⟩ : CursorState).position ∧
      setCurrentPosition ⟨[.data 0], 0, true⟩ 0 false = (⟨[.data 0], 0, true⟩, []) := by
  have h := currentChange_only_on_move ⟨[.data 0], 0, true⟩ (.data 0) 0 false
  exact ⟨by decide, h.1 (by decide), by decide, h.2.1 (by decide)⟩

/-- C7: the coordinate queries are total functions (they never throw in
the model, mirroring the absence of any throw in the source paths), and
whenever the requested mapping does not exist each returns -1 (index
queries) or `undefined` (item queries). -/
theorem coordinate_queries_default (s : CoordState) (index : Int) (it : DItem)
    (srcItem : Nat) :
    getIndex s none = -1 ∧
    (it ∉ visibleItems s → getIndex s (some it) = -1) ∧
    (getSourceByInternal s index = none → getSourceIndexByIndex s index = -1) ∧
    (getIndex s (some it) = -1 → getSourceIndexByItem s (some it) = -1) ∧
    (getInternalBySource s (strategyDisplayIndex s index) = none →
      getIndexBySourceIndex s index = -1) ∧
    (srcItem ∉ s.collection → getIndexBySourceItem s srcItem = -1) ∧
    (getIndexBySourceIndex s index = -1 → getItemBySourceIndex s index = none) ∧
    (getIndexBySourceItem s srcItem = -1 → getItemBySourceItem s srcItem = none) := by
  refine ⟨rfl, ?_, ?_, ?_, ?_, ?_, ?_, ?_⟩
  · intro h
    rw [getIndex, getIndexByInstanceId]
    exact (jsIndexOf_eq_neg_one_iff _ _).mpr h
  · intro h
    rw [getSourceIndexByIndex, h]
    rfl
  · intro h
    rw [getSourceIndexByItem, h]
    simp
  · intro h
    rw [getIndexBySourceIndex, h]
  · intro h
    have hnone : jsIndexOf s.collection srcItem = -1 := by
      rw [jsIndexOf]
      rcases hio : s.collection.indexOf? srcItem with _ | i
      · rfl
      · exfalso
        rcases List.indexOf?_eq_none_iff (a := srcItem) (l := s.collection) with ⟨_, hmpr⟩
        have : s.collection.indexOf? srcItem = none :=
          hmpr (fun y hy hbeq => h (by rwa [eq_of_beq hbeq] at hy))
        rw [hio] at this
        exact Option.noConfusion this
    rw [getIndexBySourceItem, hnone]
    simp
  · intro h
    rw [getItemBySourceIndex, h]
    simp
  · intro h
    rw [getItemBySourceItem, h]
    simp

/-- Witness for C7 on a concrete two-item state with one hidden item. -/
theorem coordinate_queries_default_witness :
    (DItem.data 9 ∉ visibleItems ⟨[.data 0, .data 1], [true, false], [0, 1], [10, 11]⟩) ∧
      getIndex ⟨[.data 0, .data 1], [true, false], [0, 1], [10, 11]⟩ (some (.data 9)) = -1 ∧
      getSourceByInternal ⟨[.data 0, .data 1], [true, false], [0, 1], [10, 11]⟩ 5 = none ∧
      getSourceIndexByIndex ⟨[.data 0, .data 1], [true, false], [0, 1], [10, 11]⟩ 5 = -1 ∧
      (99 ∉ [10, 11]) ∧
      getIndexBySourceItem ⟨[.data 0, .data 1], [true, false], [0, 1], [10, 11]⟩ 99 = -1 := by
  have h := coordinate_queries_default ⟨[.data 0, .data 1], [true, false], [0, 1], [10, 11]⟩
    5 (.data 9) 99
  exact ⟨by decide, h.2.1 (by decide), by decide, h.2.2.1 (by decide), by decide,
    h.2.2.2.2.2.1 (by decide)⟩

theorem readArray_write_ne (st : ArrayStore) (r w : Nat) (v : List FnRef)
    (h : r ≠ w) : readArray (writeArray st w v) r = readArray st r := by
  rw [readArray, writeArray, readArray]
  simp only [List.getD_eq_getElem?_getD]
  rw [List.getElem?_set_ne (by omega)]

theorem readArray_alloc_lt (st : ArrayStore) (r : Nat) (v : List FnRef)
    (h : r < st.arrays.length) :
    readArray (allocArray st v).2 r = readArray st r := by
  rw [readArray, allocArray, readArray]
  simp only [List.getD_eq_getElem?_getD]
  rw [List.getElem?_append_left h]

/-- C9: `getFilter` and `getSort` return a fresh copy: the returned
reference differs from both internal references, its contents equal the
internal list, and any mutation through the returned reference leaves
the Collection's effective filter and sort configuration unchanged. -/
theorem getFilter_getSort_snapshot (s : HeapState)
    (hf : s.filterRef < s.store.arrays.length)
    (hs : s.sortRef < s.store.arrays.length) :
    ((getFilterCopy s).1 ≠ s.filterRef ∧ (getFilterCopy s).1 ≠ s.sortRef ∧
      readArray (getFilterCopy s).2.store (getFilterCopy s).1 =
        readArray s.store s.filterRef ∧
      (getFilterCopy s).2.filterRef = s.filterRef ∧
      ∀ v, readArray (writeArray (getFilterCopy s).2.store (getFilterCopy s).1 v)
            s.filterRef = readArray s.store s.filterRef ∧
        readArray (writeArray (getFilterCopy s).2.store (getFilterCopy s).1 v)
            s.sortRef = readArray s.store s.sortRef) ∧
    ((getSortCopy s).1 ≠ s.filterRef ∧ (getSortCopy s).1 ≠ s.sortRef ∧
      readArray (getSortCopy s).2.store (getSortCopy s).1 =
        readArray s.store s.sortRef ∧
      (getSortCopy s).2.sortRef = s.sortRef ∧
      ∀ v, readArray (writeArray (getSortCopy s).2.store (getSortCopy s).1 v)
            s.filterRef = readArray s.store s.filterRef ∧
        readArray (writeArray (getSortCopy s).2.store (getSortCopy s).1 v)
            s.sortRef = readArray s.store s.sortRef) := by
  have hfr : (getFilterCopy s).1 = s.store.arrays.length := rfl
  have hsr : (getSortCopy s).1 = s.store.arrays.length := rfl
  have hlen : ∀ v, ((allocArray s.store v).2).arrays.length = s.store.arrays.length + 1 := by
    intro v
    simp [allocArray]
  constructor
  · refine ⟨by omega, by omega, ?_, rfl, ?_⟩
    · simp only [getFilterCopy, getSortCopy, allocArray, readArray,
        List.getD_eq_getElem?_getD]
      rw [List.getElem?_append_right (Nat.le_refl _)]
      simp
    · intro v
      constructor
      · rw [readArray_write_ne _ _ _ _ (by omega)]
        exact readArray_alloc_lt s.store s.filterRef _ hf
      · rw [readArray_write_ne _ _ _ _ (by omega)]
        exact readArray_alloc_lt s.store s.sortRef _ hs
  · refine ⟨by omega, by omega, ?_, rfl, ?_⟩
    · simp only [getFilterCopy, getSortCopy, allocArray, readArray,
        List.getD_eq_getElem?_getD]
      rw [List.getElem?_append_right (Nat.le_refl _)]
      simp
    · intro v
      constructor
      · rw [readArray_write_ne _ _ _ _ (by omega)]
        exact readArray_alloc_lt s.store s.filterRef _ hf
      · rw [readArray_write_ne _ _ _ _ (by omega)]
        exact readArray_alloc_lt s.store s.sortRef _ hs

/-- Witness for C9 at a two-array store. -/
theorem getFilter_getSort_snapshot_witness :
    (0 : Nat) < (ArrayStore.mk [[⟨1, 4, []⟩], [⟨2, 2, []⟩]]).arrays.length ∧
      (1 : Nat) < (ArrayStore.mk [[⟨1, 4, []⟩], [⟨2, 2, []⟩]]).arrays.length ∧
      ∀ v, readArray
          (writeArray (getFilterCopy ⟨⟨[[⟨1, 4, []⟩], [⟨2, 2, []⟩]]⟩, 0, 1⟩).2.store
            (getFilterCopy ⟨⟨[[⟨1, 4, []⟩], [⟨2, 2, []⟩]]⟩, 0, 1⟩).1 v) 0 =
        readArray ⟨[[⟨1, 4, []⟩], [⟨2, 2, []⟩]]⟩ 0 := by
  have h := getFilter_getSort_snapshot ⟨⟨[[⟨1, 4, []⟩], [⟨2, 2, []⟩]]⟩, 0, 1⟩
    (by decide) (by decide)
  exact ⟨by decide, by decide, fun v => (h.1.2.2.2.2 v).1⟩

/-- C8: for every `start` and `count`, `_reGroup(start, count)` has exactly
the same effect as the argument-free `_reGroup()`: it fully invalidates the
group strategy (or does nothing when no strategy composer exists),
independent of `start` and `count`. -/
theorem reGroup_ignores_args (s : GroupingState) (start count : Option Nat) :
    reGroup s start count = reGroup s none none ∧
    reGroup s start count = reGroupSpec s := by
  constructor <;> rfl

/-- C6: every mutating method of the Collection façade throws the
`ReadOnly` error for every input and in every Collection state, and
returns no altered projection state. -/
theorem mutators_throw_read_only (s : DisplayState) (it : DItem)
    (pos : Option Nat) (n m : Nat) :
    assign s = .error MESSAGE_READ_ONLY ∧
    append s = .error MESSAGE_READ_ONLY ∧
    prepend s = .error MESSAGE_READ_ONLY ∧
    clear s = .error MESSAGE_READ_ONLY ∧
    add s it pos = .error MESSAGE_READ_ONLY ∧
    remove s it = .error MESSAGE_READ_ONLY ∧
    removeAt s n = .error MESSAGE_READ_ONLY ∧
    replace s it n = .error MESSAGE_READ_ONLY ∧
    move s n m = .error MESSAGE_READ_ONLY := by
  refine ⟨rfl, rfl, rfl, rfl, rfl, rfl, rfl, rfl, rfl⟩

end DisplayProjection
